import Mathlib

/-!
# Verification of the shortin-v3 Google-Sheets persistence adapter

Shallow embedding of the edge-compatible Sheets adapter (the repository file
exporting `createShortUrl`, `getRecord`, `updateDestination`,
`resolveAndIncrement`, `getStats`, `deleteShortUrl`,
`findRowIndexByShortCode`, `getAllShortCodes`, `readRowAsRecord`), of the
token-cache logic in its `getAccessToken`, and of the short-code utilities in
`src/lib/shortcode.ts` (`secureRandomInt`, `generateShortCode`,
`generateUniqueShortCode`, `hashShortCode`).

The remote spreadsheet is modelled as the grid of cell values the Sheets
values API exposes: a list of rows, each row the list of its cell strings
with trailing empty cells trimmed (a fully cleared row is `[]`).  The REST
round trips of the adapter become direct state access; everything else
follows the TypeScript line by line.
-/

namespace Shortin

/-- One sheet row, as the values API returns it: the list of cell strings
(trailing empty cells trimmed; a cleared row is `[]`). -/
abbrev Row := List String

/-- The spreadsheet grid: row `i` (0-based) of the list is sheet row `i + 1`. -/
abbrev Sheet := List Row

/-- Cell `c` (0-based column) of a row; absent cells read as `""`, matching
`row[c]` being `undefined`/empty in the API response. -/
def cellAt (row : Row) (c : Nat) : String := row.getD c ""

/-- Errors thrown by the adapter (`NotFoundError`, `ConflictError`). -/
inductive StoreError
  | notFound
  | conflict
deriving Repr, DecidableEq

/-- The `ShortUrlRecord` interface.  `count` is a JS number; every count this
adapter writes is a natural number, so it is modelled as `Nat`. -/
structure ShortUrlRecord where
  id : String
  url : String
  shortCode : String
  createdAt : String
  updatedAt : String
  count : Nat
deriving Repr, DecidableEq

/-! ## Decimal cell encoding of counts

`appendValues`/`updateValues` send `record.count` (a JS number) through JSON
and the Sheets API; the stored cell reads back as its decimal string.
`natToCell` models that serialization for naturals (JS `String(n)`), and
`jsNumber` embeds `Number(countRaw ?? 0)` via `String.toNat?`: on `""` both
give `0`, and on the canonical decimal strings this adapter itself writes
they agree with JS (`Number` of a non-numeric string is `NaN`, which never
arises from adapter-written cells and is mapped to `0` here). -/

/-- The decimal digit character for `d < 10` (`'*'` is unreachable). -/
def digitChar (d : Nat) : Char :=
  match d with
  | 0 => '0' | 1 => '1' | 2 => '2' | 3 => '3' | 4 => '4'
  | 5 => '5' | 6 => '6' | 7 => '7' | 8 => '8' | 9 => '9'
  | _ => '*'

/-- Big-endian decimal digits, fuel-structured so that it reduces
definitionally; `fuel ≥ n` always suffices. -/
def natDigitsBEAux : Nat → Nat → List Char
  | 0, n => [digitChar n]
  | fuel + 1, n =>
    if n < 10 then [digitChar n]
    else natDigitsBEAux fuel (n / 10) ++ [digitChar (n % 10)]

/-- Big-endian decimal digits of a natural number (`natDigitsBE 0 = ['0']`). -/
def natDigitsBE (n : Nat) : List Char := natDigitsBEAux n n

/-- JS `String(n)` for a natural number: its decimal representation. -/
def natToCell (n : Nat) : String := String.mk (natDigitsBE n)

/-- JS `Number(countRaw ?? 0)` as applied to the count cell (see above):
the value of a non-empty all-digit string, `0` otherwise.  Stated over the
character list so that it reduces definitionally; `jsNumber_eq_toNat_getD`
below shows it is exactly `(String.toNat? s).getD 0`. -/
def jsNumber (s : String) : Nat :=
  if !s.data.isEmpty && s.data.all (·.isDigit) then
    s.data.foldl (fun n c => n * 10 + (c.toNat - '0'.toNat)) 0
  else 0

/-! ## The record-store functions (sheets adapter) -/

/-- `getAllShortCodes`: read `Sheet1!C:C`, `values.flat().filter(v => v)`.
Whether an empty C cell appears in the response as `""` or as a missing
entry, flattening plus the truthiness filter drops it, so the result is the
list of non-empty column-C cells in row order. -/
def getAllShortCodes (sheet : Sheet) : List String :=
  (sheet.map fun r => cellAt r 2).filter fun v => v != ""

/-- `findRowIndexByShortCode`: `codes.indexOf(shortCode)`, `null` when `-1`,
otherwise `idx + 1`.  (`List.indexOf` returns the length when absent, which
plays the role of `-1`.) -/
def findRowIndexByShortCode (sheet : Sheet) (shortCode : String) : Option Nat :=
  if (getAllShortCodes sheet).indexOf shortCode = (getAllShortCodes sheet).length then none
  else some ((getAllShortCodes sheet).indexOf shortCode + 1)

/-- `readRowAsRecord`: read `Sheet1!A{r}:F{r}`; `null` when the row is
missing, has fewer than six cells, or every cell is empty; otherwise
destructure the six cells, `count = Number(countRaw ?? 0)`. -/
def readRowAsRecord (sheet : Sheet) (rowIndex : Nat) : Option ShortUrlRecord :=
  match sheet.get? (rowIndex - 1) with
  | none => none
  | some row =>
    if row.length < 6 || row.all (fun cell => cell == "") then none
    else some
      { id := cellAt row 0
        url := cellAt row 1
        shortCode := cellAt row 2
        createdAt := cellAt row 3
        updatedAt := cellAt row 4
        count := jsNumber (cellAt row 5) }

/-- `buildShortUrlRecord`: the impure inputs (`generateRecordId()` and
`new Date().toISOString()`) are passed in as `id` and `now`. -/
def buildShortUrlRecord (id now url shortCode : String) : ShortUrlRecord :=
  { id := id, url := url, shortCode := shortCode
    createdAt := now, updatedAt := now, count := 0 }

/-- The six-cell row `appendValues` writes for a record. -/
def recordToRow (r : ShortUrlRecord) : Row :=
  [r.id, r.url, r.shortCode, r.createdAt, r.updatedAt, natToCell r.count]

/-- `createShortUrl`: conflict when the code is among `getAllShortCodes`,
otherwise append the record's row after the last row of the table.
(Environment validation and private-key sanitization are identity on the
sheet state and are not modelled.) -/
def createShortUrl (sheet : Sheet) (record : ShortUrlRecord) :
    Except StoreError Sheet :=
  if record.shortCode ∈ getAllShortCodes sheet then .error .conflict
  else .ok (sheet ++ [recordToRow record])

/-- Pad a row with empty cells up to length `n` (writing a cell beyond the
current row extent materialises the cells before it as empty). -/
def padTo (row : Row) (n : Nat) : Row := row ++ List.replicate (n - row.length) ""

/-- Overwrite one cell of a row (0-based column). -/
def setRowCell (row : Row) (c : Nat) (v : String) : Row := (padTo row (c + 1)).set c v

/-- `updateValues` on the single-cell range of 1-based row `r`, column `c`.
Every caller passes an `r` obtained from `findRowIndexByShortCode`, which is
at most the number of rows, so the out-of-range case never occurs. -/
def setCell (sheet : Sheet) (r : Nat) (c : Nat) (v : String) : Sheet :=
  sheet.set (r - 1) (setRowCell (sheet.getD (r - 1) []) c v)

/-- `updateDestination`: resolve the row, `NotFoundError` when absent, then
two independent single-cell writes: `Sheet1!B{r} := newUrl` and
`Sheet1!E{r} := new Date().toISOString()` (passed in as `nowIso`). -/
def updateDestination (sheet : Sheet) (shortCode newUrl nowIso : String) :
    Except StoreError Sheet :=
  match findRowIndexByShortCode sheet shortCode with
  | none => .error .notFound
  | some r => .ok (setCell (setCell sheet r 1 newUrl) r 4 nowIso)

/-- `resolveAndIncrement`: resolve the row, read it as a record, write
`count + 1` to `Sheet1!F{r}`, return the record's `url` (paired with the
updated sheet state). -/
def resolveAndIncrement (sheet : Sheet) (shortCode : String) :
    Except StoreError (String × Sheet) :=
  match findRowIndexByShortCode sheet shortCode with
  | none => .error .notFound
  | some r =>
    match readRowAsRecord sheet r with
    | none => .error .notFound
    | some record => .ok (record.url, setCell sheet r 5 (natToCell (record.count + 1)))

/-- `getStats`: resolve the row, read it, return `record.count`. -/
def getStats (sheet : Sheet) (shortCode : String) : Except StoreError Nat :=
  match findRowIndexByShortCode sheet shortCode with
  | none => .error .notFound
  | some r =>
    match readRowAsRecord sheet r with
    | none => .error .notFound
    | some record => .ok record.count

/-- `getRecord`: resolve the row, read it, return the record. -/
def getRecord (sheet : Sheet) (shortCode : String) :
    Except StoreError ShortUrlRecord :=
  match findRowIndexByShortCode sheet shortCode with
  | none => .error .notFound
  | some r =>
    match readRowAsRecord sheet r with
    | none => .error .notFound
    | some record => .ok record

/-- `deleteShortUrl`: resolve the row, `clearRange` on `A{r}:F{r}` (the row
keeps its position; its cells become empty, i.e. the row becomes `[]`). -/
def deleteShortUrl (sheet : Sheet) (shortCode : String) :
    Except StoreError Sheet :=
  match findRowIndexByShortCode sheet shortCode with
  | none => .error .notFound
  | some r => .ok (sheet.set (r - 1) [])

/-- Sequential iteration of `resolveAndIncrement`: the list of returned urls
and the final sheet state after `n` successful calls. -/
def resolveIter (shortCode : String) : Nat → Sheet → Except StoreError (List String × Sheet)
  | 0, sheet => .ok ([], sheet)
  | n + 1, sheet =>
    match resolveAndIncrement sheet shortCode with
    | .error e => .error e
    | .ok (url, sheet') =>
      match resolveIter shortCode n sheet' with
      | .error e => .error e
      | .ok (urls, sheet'') => .ok (url :: urls, sheet'')

/-- 1-based numbers of the live rows whose column-C cell is `code` (a row
holding a code is in particular not all-empty, hence live). -/
def liveRowsWithCode (sheet : Sheet) (code : String) : List Nat :=
  ((List.range sheet.length).filter fun i =>
    !((sheet.getD i []).all fun cell => cell == "") && cellAt (sheet.getD i []) 2 == code).map
    (· + 1)

/-! ## Decimal round trip -/

theorem digitChar_isDigit : ∀ d, d < 10 → (digitChar d).isDigit = true := by decide

theorem digitChar_toNat : ∀ d, d < 10 → (digitChar d).toNat = 48 + d := by decide

theorem natDigitsBEAux_ne_nil (fuel n : Nat) : natDigitsBEAux fuel n ≠ [] := by
  cases fuel with
  | zero => simp [natDigitsBEAux]
  | succ fuel =>
    rw [natDigitsBEAux]
    split <;> simp

theorem natDigitsBE_ne_nil (n : Nat) : natDigitsBE n ≠ [] :=
  natDigitsBEAux_ne_nil n n

theorem natDigitsBEAux_isDigit :
    ∀ fuel n, n ≤ fuel ∨ n < 10 → ∀ c ∈ natDigitsBEAux fuel n, c.isDigit = true := by
  intro fuel
  induction fuel with
  | zero =>
    intro n hn c hc
    simp only [natDigitsBEAux, List.mem_singleton] at hc
    subst hc
    exact digitChar_isDigit n (by omega)
  | succ fuel ih =>
    intro n hn c hc
    rw [natDigitsBEAux] at hc
    split at hc
    · next h =>
      simp only [List.mem_singleton] at hc
      subst hc
      exact digitChar_isDigit n h
    · next h =>
      rcases List.mem_append.mp hc with h1 | h2
      · have hlt : n / 10 < n := Nat.div_lt_self (by omega) (by omega)
        exact ih (n / 10) (Or.inl (by omega)) c h1
      · simp only [List.mem_singleton] at h2
        subst h2
        exact digitChar_isDigit _ (Nat.mod_lt _ (by omega))

theorem natDigitsBE_isDigit (n : Nat) : ∀ c ∈ natDigitsBE n, c.isDigit = true :=
  natDigitsBEAux_isDigit n n (Or.inl le_rfl)

theorem natDigitsBEAux_foldl :
    ∀ fuel n, n ≤ fuel ∨ n < 10 →
    ∀ a, (natDigitsBEAux fuel n).foldl (fun acc c => acc * 10 + (c.toNat - '0'.toNat)) a =
      a * 10 ^ (natDigitsBEAux fuel n).length + n := by
  intro fuel
  induction fuel with
  | zero =>
    intro n hn a
    simp only [natDigitsBEAux, List.foldl, List.length_singleton, pow_one]
    have hd := digitChar_toNat n (by omega)
    have h0 : '0'.toNat = 48 := rfl
    omega
  | succ fuel ih =>
    intro n hn a
    rw [natDigitsBEAux]
    split
    · next h =>
      simp only [List.foldl, List.length_singleton, pow_one]
      have hd := digitChar_toNat n h
      have h0 : '0'.toNat = 48 := rfl
      omega
    · next h =>
      have hlt : n / 10 < n := Nat.div_lt_self (by omega) (by omega)
      have hdiv : n / 10 ≤ fuel := by omega
      rw [List.foldl_append, ih (n / 10) (Or.inl hdiv) a]
      simp only [List.foldl, List.length_append, List.length_singleton]
      rw [pow_succ, ← mul_assoc]
      have hd := digitChar_toNat (n % 10) (Nat.mod_lt _ (by omega))
      have h0 : '0'.toNat = 48 := rfl
      have hdm := Nat.div_add_mod n 10
      omega

theorem natDigitsBE_foldl (n : Nat) :
    ∀ a, (natDigitsBE n).foldl (fun acc c => acc * 10 + (c.toNat - '0'.toNat)) a =
      a * 10 ^ (natDigitsBE n).length + n :=
  natDigitsBEAux_foldl n n (Or.inl le_rfl)

theorem jsNumber_eq_toNat_getD (s : String) : jsNumber s = (String.toNat? s).getD 0 := by
  have hemp : s.isEmpty = s.data.isEmpty := by
    by_cases h : s = ""
    · subst h; rfl
    · have h1 : s.isEmpty = false := by
        rw [Bool.eq_false_iff]
        intro hx
        exact h ((String.isEmpty_iff s).mp hx)
      have h2 : s.data.isEmpty = false := by
        rw [Bool.eq_false_iff]
        intro hx
        apply h
        cases s with
        | mk data =>
          cases data with
          | nil => rfl
          | cons a l => simp [List.isEmpty] at hx
      rw [h1, h2]
  rw [jsNumber, String.toNat?, String.isNat, hemp, String.all_eq, String.foldl_eq]
  split
  · rfl
  · rfl

theorem jsNumber_natToCell (n : Nat) : jsNumber (natToCell n) = n := by
  have h1 : (natDigitsBE n).isEmpty = false := by
    cases h : natDigitsBE n with
    | nil => exact absurd h (natDigitsBE_ne_nil n)
    | cons a l => rfl
  have h2 : (natDigitsBE n).all (·.isDigit) = true :=
    List.all_eq_true.mpr (natDigitsBE_isDigit n)
  show (if !(natDigitsBE n).isEmpty && (natDigitsBE n).all (·.isDigit) then
      (natDigitsBE n).foldl (fun acc c => acc * 10 + (c.toNat - '0'.toNat)) 0
    else 0) = n
  rw [if_pos (by rw [h1, h2]; rfl)]
  rw [natDigitsBE_foldl n 0]
  simp

/-! ## Cell-access lemmas -/

theorem cellAt_replicate_empty (k i : Nat) : cellAt (List.replicate k "") i = "" := by
  induction k generalizing i with
  | zero => rfl
  | succ k ih =>
    cases i with
    | zero => rfl
    | succ i => exact ih i

theorem cellAt_append_replicate (row : Row) (k i : Nat) :
    cellAt (row ++ List.replicate k "") i = cellAt row i := by
  induction row generalizing i with
  | nil =>
    show cellAt (List.replicate k "") i = cellAt [] i
    rw [cellAt_replicate_empty]
    rfl
  | cons a row ih =>
    cases i with
    | zero => rfl
    | succ i => exact ih i

theorem cellAt_padTo (row : Row) (n i : Nat) : cellAt (padTo row n) i = cellAt row i :=
  cellAt_append_replicate row _ i

theorem cellAt_set_self {row : Row} {c : Nat} (v : String) (h : c < row.length) :
    cellAt (row.set c v) c = v := by
  induction row generalizing c with
  | nil => simp at h
  | cons a row ih =>
    cases c with
    | zero => rfl
    | succ c => exact ih (by simpa using h)

theorem cellAt_set_ne {row : Row} {c i : Nat} (v : String) (h : i ≠ c) :
    cellAt (row.set c v) i = cellAt row i := by
  induction row generalizing c i with
  | nil => rfl
  | cons a row ih =>
    cases c with
    | zero =>
      cases i with
      | zero => exact absurd rfl h
      | succ i => rfl
    | succ c =>
      cases i with
      | zero => rfl
      | succ i => exact ih (by omega)

theorem length_padTo (row : Row) (n : Nat) : n ≤ (padTo row n).length := by
  simp only [padTo, List.length_append, List.length_replicate]
  omega

theorem cellAt_setRowCell_self (row : Row) (c : Nat) (v : String) :
    cellAt (setRowCell row c v) c = v :=
  cellAt_set_self v (Nat.lt_of_lt_of_le (Nat.lt_succ_self c) (length_padTo row (c + 1)))

theorem cellAt_setRowCell_ne (row : Row) {c i : Nat} (v : String) (h : i ≠ c) :
    cellAt (setRowCell row c v) i = cellAt row i := by
  rw [setRowCell, cellAt_set_ne v h, cellAt_padTo]

/-! ## List positioning lemmas -/

theorem set_append_cons (A : Sheet) (row x : Row) (B : Sheet) :
    (A ++ row :: B).set A.length x = A ++ x :: B := by
  induction A with
  | nil => rfl
  | cons a A ih =>
    show a :: (A ++ row :: B).set A.length x = a :: (A ++ x :: B)
    rw [ih]

theorem getD_append_cons (A : Sheet) (row : Row) (B : Sheet) :
    (A ++ row :: B).getD A.length [] = row := by
  induction A with
  | nil => rfl
  | cons a A ih => exact ih

theorem get?_append_cons (A : Sheet) (row : Row) (B : Sheet) :
    (A ++ row :: B).get? A.length = some row := by
  induction A with
  | nil => rfl
  | cons a A ih => exact ih

/-! ## Scan lemmas -/

theorem getAllShortCodes_append (s t : Sheet) :
    getAllShortCodes (s ++ t) = getAllShortCodes s ++ getAllShortCodes t := by
  simp [getAllShortCodes, List.filter_append]

theorem getAllShortCodes_cons (row : Row) (s : Sheet) :
    getAllShortCodes (row :: s) =
      if cellAt row 2 != "" then cellAt row 2 :: getAllShortCodes s
      else getAllShortCodes s := by
  simp only [getAllShortCodes, List.map_cons, List.filter_cons]

theorem getAllShortCodes_eq_map {s : Sheet} (h : ∀ r ∈ s, cellAt r 2 ≠ "") :
    getAllShortCodes s = s.map fun r => cellAt r 2 := by
  rw [getAllShortCodes, List.filter_eq_self.mpr]
  intro a ha
  rcases List.mem_map.mp ha with ⟨r, hr, rfl⟩
  simpa [bne_iff_ne] using h r hr

theorem mem_getAllShortCodes {s : Sheet} {code : String} :
    code ∈ getAllShortCodes s ↔ ((∃ r ∈ s, cellAt r 2 = code) ∧ code ≠ "") := by
  simp [getAllShortCodes, List.mem_filter, bne_iff_ne]

/-- Scenario lemma: when no row before `row` is a gap or holds `code`, and
`row` holds `code` in column C, the scan resolves to the true sheet row
number of `row`. -/
theorem findRowIndex_split (A : Sheet) (row : Row) (B : Sheet) (code : String)
    (hA : ∀ r ∈ A, cellAt r 2 ≠ "" ∧ cellAt r 2 ≠ code)
    (hrow : cellAt row 2 = code) (hcode : code ≠ "") :
    findRowIndexByShortCode (A ++ row :: B) code = some (A.length + 1) := by
  have hmap : getAllShortCodes A = A.map fun r => cellAt r 2 :=
    getAllShortCodes_eq_map fun r hr => (hA r hr).1
  have hsplit : getAllShortCodes (A ++ row :: B)
      = (A.map fun r => cellAt r 2) ++ code :: getAllShortCodes B := by
    rw [getAllShortCodes_append, hmap, getAllShortCodes_cons, hrow, if_pos]
    simpa [bne_iff_ne] using hcode
  have hnotmem : code ∉ A.map fun r => cellAt r 2 := by
    intro hmem
    rcases List.mem_map.mp hmem with ⟨r, hr, heq⟩
    exact (hA r hr).2 heq
  rw [findRowIndexByShortCode, hsplit,
    List.indexOf_append_of_not_mem hnotmem, List.indexOf_cons_self,
    if_neg (by simp [List.length_append, List.length_map])]
  simp

theorem readRowAsRecord_record (A : Sheet) (rec : ShortUrlRecord) (B : Sheet)
    (h : rec.shortCode ≠ "") :
    readRowAsRecord (A ++ recordToRow rec :: B) (A.length + 1) = some rec := by
  rw [readRowAsRecord]
  simp only [Nat.add_sub_cancel, get?_append_cons]
  rw [if_neg]
  · simp [recordToRow, cellAt, List.getD, jsNumber_natToCell]
  · simp [recordToRow, h]

/-! ## Operation step lemmas -/

theorem setCell_append_cons (A : Sheet) (row : Row) (B : Sheet) (c : Nat) (v : String) :
    setCell (A ++ row :: B) (A.length + 1) c v = A ++ setRowCell row c v :: B := by
  rw [setCell]
  simp only [Nat.add_sub_cancel]
  rw [getD_append_cons, set_append_cons]

theorem setRowCell_recordToRow_count (rec : ShortUrlRecord) (n : Nat) :
    setRowCell (recordToRow rec) 5 (natToCell n) = recordToRow { rec with count := n } := rfl

theorem findRowIndex_eq_none {sheet : Sheet} {code : String} :
    findRowIndexByShortCode sheet code = none ↔ code ∉ getAllShortCodes sheet := by
  rw [findRowIndexByShortCode]
  split
  · next h => simp [List.indexOf_eq_length.mp h]
  · next h =>
    constructor
    · intro hx
      exact absurd hx (by simp)
    · intro hnot
      exact absurd (List.indexOf_eq_length.mpr hnot) h

/-- Split a sheet at the first row holding `code` in column C. -/
theorem exists_first_holder {sheet : Sheet} {code : String}
    (hmem : ∃ r ∈ sheet, cellAt r 2 = code) :
    ∃ A row B, sheet = A ++ row :: B ∧ (∀ r ∈ A, cellAt r 2 ≠ code) ∧
      cellAt row 2 = code := by
  induction sheet with
  | nil =>
    rcases hmem with ⟨r, hr, _⟩
    cases hr
  | cons a s ih =>
    by_cases h : cellAt a 2 = code
    · exact ⟨[], a, s, rfl, by simp, h⟩
    · rcases hmem with ⟨r, hr, hc⟩
      rcases List.mem_cons.mp hr with rfl | hr'
      · exact absurd hc h
      · rcases ih ⟨r, hr', hc⟩ with ⟨A, row, B, hs, hA, hrow⟩
        refine ⟨a :: A, row, B, by rw [hs]; rfl, ?_, hrow⟩
        intro x hx
        rcases List.mem_cons.mp hx with rfl | hx'
        · exact h
        · exact hA x hx'

/-- Reading a six-cell row with a non-empty code cell succeeds. -/
theorem readRowAsRecord_append_cons (A : Sheet) (row : Row) (B : Sheet)
    (h6 : row.length = 6) (hC : cellAt row 2 ≠ "") :
    readRowAsRecord (A ++ row :: B) (A.length + 1) = some
      { id := cellAt row 0, url := cellAt row 1, shortCode := cellAt row 2,
        createdAt := cellAt row 3, updatedAt := cellAt row 4,
        count := jsNumber (cellAt row 5) } := by
  rw [readRowAsRecord]
  simp only [Nat.add_sub_cancel, get?_append_cons]
  rw [if_neg]
  intro hcond
  rcases Bool.or_eq_true _ _ |>.mp hcond with hlt | hall
  · exact absurd (of_decide_eq_true hlt) (by omega)
  · exact hC (by
      have h2lt : 2 < row.length := by omega
      have hmem2 : row.getD 2 "" ∈ row := by
        rw [List.getD_eq_getElem?_getD, List.getElem?_eq_getElem h2lt]
        exact List.getElem_mem h2lt
      exact eq_of_beq (List.all_eq_true.mp hall _ hmem2))

/-- On a gap-free sheet of six-cell rows, a code present in the scan
resolves to a row whose read succeeds and returns a record carrying it. -/
theorem findRowIndex_mem_read {sheet : Sheet} {code : String}
    (hgap : ∀ r ∈ sheet, cellAt r 2 ≠ "")
    (hlen : ∀ r ∈ sheet, r.length = 6)
    (hmem : code ∈ getAllShortCodes sheet) :
    ∃ r rec, findRowIndexByShortCode sheet code = some r ∧
      readRowAsRecord sheet r = some rec ∧ rec.shortCode = code := by
  rcases mem_getAllShortCodes.mp hmem with ⟨⟨row0, hrow0, hc0⟩, hcode⟩
  rcases exists_first_holder ⟨row0, hrow0, hc0⟩ with ⟨A, row, B, hs, hA, hrow⟩
  subst hs
  have hA' : ∀ r ∈ A, cellAt r 2 ≠ "" ∧ cellAt r 2 ≠ code := fun r hr =>
    ⟨hgap r (List.mem_append_left _ hr), hA r hr⟩
  have h6 : row.length = 6 := hlen row (List.mem_append_right _ (List.mem_cons_self _ _))
  refine ⟨A.length + 1, _,
    findRowIndex_split A row B code hA' hrow hcode,
    readRowAsRecord_append_cons A row B h6 (by rw [hrow]; exact hcode), hrow⟩

/-- One `resolveAndIncrement` call on a sheet whose first holder of the code
is a well-formed record row: returns the url and bumps only the count cell. -/
theorem resolveAndIncrement_step (A : Sheet) (rec : ShortUrlRecord) (B : Sheet)
    (hA : ∀ r ∈ A, cellAt r 2 ≠ "" ∧ cellAt r 2 ≠ rec.shortCode)
    (hcode : rec.shortCode ≠ "") :
    resolveAndIncrement (A ++ recordToRow rec :: B) rec.shortCode =
      .ok (rec.url, A ++ recordToRow { rec with count := rec.count + 1 } :: B) := by
  have hrow : cellAt (recordToRow rec) 2 = rec.shortCode := rfl
  simp only [resolveAndIncrement, findRowIndex_split A _ B _ hA hrow hcode,
    readRowAsRecord_record A rec B hcode, setCell_append_cons,
    setRowCell_recordToRow_count]

/-- Iterating `resolveAndIncrement` `n` times in the same scenario: every
call returns the record's url and the count cell ends at `count + n`. -/
theorem resolveIter_spec (A B : Sheet) (code : String) (n : Nat) :
    ∀ rec : ShortUrlRecord, rec.shortCode = code → code ≠ "" →
    (∀ r ∈ A, cellAt r 2 ≠ "" ∧ cellAt r 2 ≠ code) →
    resolveIter code n (A ++ recordToRow rec :: B) =
      .ok (List.replicate n rec.url,
        A ++ recordToRow { rec with count := rec.count + n } :: B) := by
  induction n with
  | zero =>
    intro rec h1 h2 hA
    rfl
  | succ n ih =>
    intro rec h1 h2 hA
    subst h1
    simp only [resolveIter, resolveAndIncrement_step A rec B hA h2]
    rw [ih { rec with count := rec.count + 1 } rfl h2 hA]
    have hc : rec.count + 1 + n = rec.count + (n + 1) := by omega
    simp [hc, List.replicate_succ]

/-! ## Token provider (`getAccessToken`)

The cache, the clock and the single outbound `fetch` of one call are made
explicit: the function receives the cache state and `now` (epoch seconds,
`Math.floor(Date.now() / 1000)`), and the outcome the token endpoint would
produce if called; it returns the token, the cache afterwards, and whether
a token-endpoint request was made. -/

structure TokenCacheEntry where
  token : String
  exp : Int
deriving Repr, DecidableEq

structure TokenResponse where
  access_token : String
  expires_in : Option Int
deriving Repr, DecidableEq

inductive FetchOutcome
  | ok (resp : TokenResponse)
  | httpError (status : Nat) (body : String)
deriving Repr, DecidableEq

inductive TokenError
  | authError (status : Nat) (body : String)
deriving Repr, DecidableEq

structure TokenResult where
  token : String
  cache : Option TokenCacheEntry
  networkCall : Bool
deriving Repr, DecidableEq

/-- The fresh-exchange path: non-2xx throws; a 2xx response yields
`expiresIn = typeof expires_in === "number" ? expires_in : 3600` and stores
`{token: access_token, exp: now + expiresIn}`. -/
def refreshAccessToken (now : Int) (f : FetchOutcome) : Except TokenError TokenResult :=
  match f with
  | .httpError s b => .error (.authError s b)
  | .ok resp =>
    .ok { token := resp.access_token
          cache := some { token := resp.access_token, exp := now + resp.expires_in.getD 3600 }
          networkCall := true }

/-- `getAccessToken`: `if (tokenCache && tokenCache.exp - 60 > now) return
tokenCache.token;` else perform the exchange. -/
def getAccessToken (cache : Option TokenCacheEntry) (now : Int) (f : FetchOutcome) :
    Except TokenError TokenResult :=
  match cache with
  | some c =>
    if c.exp - 60 > now then
      .ok { token := c.token, cache := some c, networkCall := false }
    else refreshAccessToken now f
  | none => refreshAccessToken now f

/-! ## Rejection-sampling limit (`secureRandomInt`) -/

/-- `Math.floor((0xffffffff / maxExclusive) * maxExclusive)` in exact
(rational) arithmetic.  For `maxExclusive = 2` the IEEE-754 double
computation is also exact (`0xffffffff / 2 = 2147483647.5` needs a 33-bit
significand, well within double precision, and multiplying back by `2` is
an exponent shift), so the model coincides with the JavaScript value there. -/
def rejectionLimit (maxExclusive : Nat) : Int :=
  Int.floor ((4294967295 : ℚ) / (maxExclusive : ℚ) * (maxExclusive : ℚ))

/-- The set of 32-bit draws `arr[0]` that `secureRandomInt` accepts
(`arr[0] < limit`) rather than rejecting into recursion. -/
def acceptedDraws (maxExclusive : Nat) : Finset Nat :=
  (Finset.range (2 ^ 32)).filter fun x => (x : Int) < rejectionLimit maxExclusive

/-! ## `generateUniqueShortCode`

The candidates produced by the underlying `generateShortCode` calls are
modelled as a stream indexed by attempt number (attempt `i` draws
`cands i`); `checkExists` is the injected existence predicate. -/

inductive GenError
  | exhausted (attempts : Nat)
deriving Repr, DecidableEq

/-- The `for (let attempt = 1; attempt <= maxAttempts; attempt++)` loop:
returns the first candidate whose `checkExists` is false together with the
number of candidates generated, or `none` after consuming all attempts. -/
def genUniqueGo (cands : Nat → String) (checkExists : String → Bool) :
    Nat → Nat → Option String × Nat
  | _, 0 => (none, 0)
  | attempt, fuel + 1 =>
    if checkExists (cands attempt) then
      let r := genUniqueGo cands checkExists (attempt + 1) fuel
      (r.1, r.2 + 1)
    else (some (cands attempt), 1)

/-- `generateUniqueShortCode` with its defaulting:
`maxAttempts = maxAttemptsOpt ?? (lengthOpt ?? 6) * 5`. -/
def generateUniqueShortCode (cands : Nat → String) (checkExists : String → Bool)
    (lengthOpt maxAttemptsOpt : Option Nat) : Except GenError String :=
  match (genUniqueGo cands checkExists 1 (maxAttemptsOpt.getD ((lengthOpt.getD 6) * 5))).1 with
  | some c => .ok c
  | none => .error (.exhausted (maxAttemptsOpt.getD ((lengthOpt.getD 6) * 5)))

/-! ## `hashShortCode`

The SHA-256 digest of `salt + input` comes from Web Crypto, external to the
repository; the function is therefore parameterised by the digest bytes (a
SHA-256 digest always has 32 bytes).  Strings are modelled as `List Char`. -/

/-- The mapping loop
`for (i = 0; i < digestBytes.length && code.length < length; i++)
   code += charset[digestBytes[i] % charLen]`. -/
def hashLoop (charset : List Char) (len : Nat) : List Nat → List Char → List Char
  | [], code => code
  | b :: bs, code =>
    if code.length < len then
      hashLoop charset len bs (code ++ [charset.getD (b % charset.length) 'A'])
    else code

/-- `hashShortCode` on the digest bytes: throws (`none`) when the charset
has fewer than 4 characters, otherwise runs the loop and takes
`code.slice(0, length)`. -/
def hashShortCode (digest : List Nat) (len : Nat) (charset : List Char) :
    Option (List Char) :=
  if charset.length < 4 then none
  else some ((hashLoop charset len digest []).take len)

/-! ## Helper lemmas for the generators -/

theorem rejectionLimit_two : rejectionLimit 2 = 4294967295 := by
  rw [rejectionLimit]
  norm_num

theorem filter_range_lt (n N : Nat) :
    (Finset.range N).filter (fun x => x < n) = Finset.range (min n N) := by
  ext x
  simp only [Finset.mem_filter, Finset.mem_range, Nat.lt_min]
  exact and_comm

theorem acceptedDraws_two_card : (acceptedDraws 2).card = 4294967295 := by
  have h1 : acceptedDraws 2 = (Finset.range (2 ^ 32)).filter fun x => x < 4294967295 := by
    rw [acceptedDraws]
    apply Finset.filter_congr
    intro x _
    rw [rejectionLimit_two]
    constructor
    · intro h
      exact_mod_cast h
    · intro h
      exact_mod_cast h
  rw [h1, filter_range_lt, Finset.card_range]
  norm_num

theorem genUniqueGo_all_taken (cands : Nat → String) (check : String → Bool) :
    ∀ fuel start, (∀ i, start ≤ i → i < start + fuel → check (cands i) = true) →
    genUniqueGo cands check start fuel = (none, fuel) := by
  intro fuel
  induction fuel with
  | zero => intro start _; rfl
  | succ fuel ih =>
    intro start h
    have hc : check (cands start) = true := h start le_rfl (by omega)
    have hrec := ih (start + 1) fun i h1 h2 => h i (by omega) (by omega)
    simp [genUniqueGo, hc, hrec]

theorem genUniqueGo_first (cands : Nat → String) (check : String → Bool) :
    ∀ fuel start j, start ≤ j → j < start + fuel →
    (∀ i, start ≤ i → i < j → check (cands i) = true) →
    check (cands j) = false →
    genUniqueGo cands check start fuel = (some (cands j), j - start + 1) := by
  intro fuel
  induction fuel with
  | zero =>
    intro start j h1 h2 _ _
    exact absurd h2 (by omega)
  | succ fuel ih =>
    intro start j h1 h2 hprev hj
    by_cases hs : j = start
    · subst hs
      simp [genUniqueGo, hj]
    · have hc : check (cands start) = true := hprev start le_rfl (by omega)
      have hrec := ih (start + 1) j (by omega) (by omega)
        (fun i hi1 hi2 => hprev i (by omega) hi2) hj
      have harith : j - (start + 1) + 1 + 1 = j - start + 1 := by omega
      simp [genUniqueGo, hc, hrec, harith]

theorem hashLoop_spec (charset : List Char) (len : Nat) :
    ∀ (bs : List Nat) (code : List Char), code.length ≤ len →
    hashLoop charset len bs code =
      code ++ (bs.take (len - code.length)).map fun b => charset.getD (b % charset.length) 'A' := by
  intro bs
  induction bs with
  | nil =>
    intro code _
    simp [hashLoop]
  | cons b bs ih =>
    intro code h
    rw [hashLoop]
    by_cases hlt : code.length < len
    · rw [if_pos hlt, ih _ (by simp only [List.length_append, List.length_singleton]; omega)]
      rw [show len - code.length = (len - (code.length + 1)) + 1 by omega,
        List.take_succ_cons, List.map_cons]
      simp [List.append_assoc]
    · rw [if_neg hlt]
      have h0 : len - code.length = 0 := by omega
      simp [h0]

theorem hashShortCode_spec (digest : List Nat) (len : Nat) (charset : List Char)
    (hcs : 4 ≤ charset.length) :
    hashShortCode digest len charset =
      some ((digest.take len).map fun b => charset.getD (b % charset.length) 'A') := by
  rw [hashShortCode, if_neg (by omega)]
  rw [hashLoop_spec charset len digest [] (by simp)]
  simp [List.take_take, ← List.map_take]

/-! ## Claim theorems -/

/-- C1: the claim says `findRowIndexByShortCode` returns the true 1-based
sheet row number of the unique live row holding the code, skipping
tombstoned gaps.  The code indexes into the gap-filtered code list instead:
on a sheet whose row 1 is a cleared gap and whose row 2 is the unique live
row holding `abc`, it returns row 1 — the tombstone — rather than 2. -/
theorem claim_C1_gap_misresolution :
    liveRowsWithCode [[], ["id1", "https://a.example", "abc", "t1", "t1", "0"]] "abc" = [2] ∧
    findRowIndexByShortCode [[], ["id1", "https://a.example", "abc", "t1", "t1", "0"]] "abc" =
      some 1 :=
  ⟨rfl, rfl⟩

/-- C2 counterexample: the claim says creating a record whose short code
equals the header cell text of column C raises no `ConflictError` when no
data row holds that code.  On a sheet holding only the header row, the code
raises `ConflictError` for exactly that input, because the scan includes
the header's column-C cell. -/
theorem claim_C2_counterexample :
    createShortUrl [["id", "url", "shortCode", "createdAt", "updatedAt", "count"]]
      (buildShortUrlRecord "i1" "t1" "https://x.example" "shortCode") =
      .error .conflict :=
  rfl

/-- C2 amended: the scans treat every non-empty column-C cell as a taken
code, row 1 included; creating a record whose `shortCode` equals the
header's column-C text always raises `ConflictError`, even when no data row
holds it. -/
theorem claim_C2_header_as_data (hdr : Row) (rest : Sheet) (rec : ShortUrlRecord)
    (hne : cellAt hdr 2 ≠ "") (hsc : rec.shortCode = cellAt hdr 2) :
    createShortUrl (hdr :: rest) rec = .error .conflict := by
  rw [createShortUrl, if_pos]
  exact mem_getAllShortCodes.mpr ⟨⟨hdr, List.mem_cons_self _ _, hsc.symm⟩, hsc ▸ hne⟩

theorem claim_C2_header_as_data_witness :
    createShortUrl [["id", "url", "shortCode", "createdAt", "updatedAt", "count"], []]
      (buildShortUrlRecord "i2" "t2" "https://y.example" "shortCode") = .error .conflict :=
  claim_C2_header_as_data _ _ _ (by decide) rfl

/-- C3 counterexample: the claim states the create-then-find round trip for
every sheet state.  With a tombstoned gap at row 1 and a live row at row 2,
creating `abc` appends it at row 3, but `getRecord` then resolves `abc` to
row 2 and returns the other record (`xyz`), not the one just created. -/
theorem claim_C3_counterexample :
    createShortUrl [[], ["idX", "https://x.example", "xyz", "tX", "tX", "0"]]
        (buildShortUrlRecord "idA" "tA" "https://a.example" "abc") =
      .ok [[], ["idX", "https://x.example", "xyz", "tX", "tX", "0"],
        ["idA", "https://a.example", "abc", "tA", "tA", "0"]] ∧
    getRecord [[], ["idX", "https://x.example", "xyz", "tX", "tX", "0"],
        ["idA", "https://a.example", "abc", "tA", "tA", "0"]] "abc" =
      .ok { id := "idX", url := "https://x.example", shortCode := "xyz",
            createdAt := "tX", updatedAt := "tX", count := 0 } :=
  ⟨rfl, rfl⟩

/-- C3 amended: on a sheet with no tombstoned gaps (every row's column-C
cell non-empty), for every non-empty shortCode taken by no live row,
`createShortUrl` of a `buildShortUrlRecord` record succeeds by appending
exactly that record's row, `getRecord` then returns a record with the same
id, url, shortCode and `count = 0`; and whenever the code is already taken,
`createShortUrl` fails with `ConflictError` (and returns no new sheet). -/
theorem claim_C3_roundtrip (sheet : Sheet) (id now url code : String)
    (hgap : ∀ r ∈ sheet, cellAt r 2 ≠ "")
    (hfree : code ∉ getAllShortCodes sheet) (hcode : code ≠ "") :
    createShortUrl sheet (buildShortUrlRecord id now url code) =
      .ok (sheet ++ [recordToRow (buildShortUrlRecord id now url code)]) ∧
    getRecord (sheet ++ [recordToRow (buildShortUrlRecord id now url code)]) code =
      .ok (buildShortUrlRecord id now url code) ∧
    (buildShortUrlRecord id now url code).count = 0 ∧
    ∀ (sheet' : Sheet) (rec' : ShortUrlRecord),
      rec'.shortCode ∈ getAllShortCodes sheet' →
      createShortUrl sheet' rec' = .error .conflict := by
  have hA : ∀ r ∈ sheet, cellAt r 2 ≠ "" ∧ cellAt r 2 ≠ code := by
    intro r hr
    refine ⟨hgap r hr, fun hc => hfree (mem_getAllShortCodes.mpr ⟨⟨r, hr, hc⟩, hcode⟩)⟩
  refine ⟨by rw [createShortUrl]; exact if_neg hfree, ?_, rfl, ?_⟩
  · have hfind := findRowIndex_split sheet (recordToRow (buildShortUrlRecord id now url code))
      [] code hA rfl hcode
    have hread := readRowAsRecord_record sheet (buildShortUrlRecord id now url code) [] hcode
    simp only [getRecord, hfind, hread]
  · intro sheet' rec' hmem
    rw [createShortUrl, if_pos hmem]

theorem claim_C3_roundtrip_witness :
    createShortUrl [["idX", "https://x.example", "xyz", "tX", "tX", "0"]]
        (buildShortUrlRecord "idA" "tA" "https://a.example" "abc") =
      .ok ([["idX", "https://x.example", "xyz", "tX", "tX", "0"]] ++
        [recordToRow (buildShortUrlRecord "idA" "tA" "https://a.example" "abc")]) ∧
    getRecord ([["idX", "https://x.example", "xyz", "tX", "tX", "0"]] ++
        [recordToRow (buildShortUrlRecord "idA" "tA" "https://a.example" "abc")]) "abc" =
      .ok (buildShortUrlRecord "idA" "tA" "https://a.example" "abc") ∧
    createShortUrl [["idX", "https://x.example", "xyz", "tX", "tX", "0"]]
        (buildShortUrlRecord "idB" "tB" "https://b.example" "xyz") = .error .conflict := by
  have h := claim_C3_roundtrip [["idX", "https://x.example", "xyz", "tX", "tX", "0"]]
    "idA" "tA" "https://a.example" "abc" (by decide) (by decide) (by decide)
  exact ⟨h.1, h.2.1, h.2.2.2 _ _ (by decide)⟩

/-- C4 counterexample: the claim says `resolveAndIncrement` fails with
`NotFoundError` exactly when no live row holds the code, and otherwise
returns the record's url.  With a tombstoned gap at row 1 and the unique
live row holding `vier` (count 0) at row 2, the call resolves to the
tombstone, reads nothing, and fails `NotFoundError` even though a live row
holds the code. -/
theorem claim_C4_counterexample :
    liveRowsWithCode [[], ["id4", "https://four.example", "vier", "t4", "t4", "0"]] "vier" =
      [2] ∧
    resolveAndIncrement [[], ["id4", "https://four.example", "vier", "t4", "t4", "0"]]
      "vier" = .error .notFound :=
  ⟨rfl, rfl⟩

/-- C4 amended: when no tombstoned gap (and no earlier holder of the code)
precedes the unique record row, `n` sequential `resolveAndIncrement` calls
each return the record's url and leave the count cell at `n` (starting from
`count = 0`), touching nothing else; and on gap-free sheets of six-cell
rows, the call fails `NotFoundError` exactly when no live row holds the
code. -/
theorem claim_C4_increment (A B : Sheet) (rec : ShortUrlRecord) (n : Nat)
    (hA : ∀ r ∈ A, cellAt r 2 ≠ "" ∧ cellAt r 2 ≠ rec.shortCode)
    (hcode : rec.shortCode ≠ "") (hcount : rec.count = 0) :
    resolveIter rec.shortCode n (A ++ recordToRow rec :: B) =
      .ok (List.replicate n rec.url, A ++ recordToRow { rec with count := n } :: B) ∧
    ∀ (sheet : Sheet) (code : String),
      (∀ r ∈ sheet, cellAt r 2 ≠ "") → (∀ r ∈ sheet, r.length = 6) →
      (resolveAndIncrement sheet code = .error .notFound ↔
        code ∉ getAllShortCodes sheet) := by
  constructor
  · have h := resolveIter_spec A B rec.shortCode n rec rfl hcode hA
    rw [hcount] at h
    simpa using h
  · intro sheet code hgap hlen
    constructor
    · intro herr hmem
      rcases findRowIndex_mem_read hgap hlen hmem with ⟨r, rec', hf, hr, _⟩
      simp [resolveAndIncrement, hf, hr] at herr
    · intro hnot
      rw [resolveAndIncrement, findRowIndex_eq_none.mpr hnot]

theorem claim_C4_increment_witness :
    resolveIter "abc" 3
        ([] ++ recordToRow
          { id := "id1", url := "https://a.example", shortCode := "abc",
            createdAt := "t1", updatedAt := "t1", count := 0 } :: []) =
      .ok (List.replicate 3 "https://a.example",
        [] ++ recordToRow
          { id := "id1", url := "https://a.example", shortCode := "abc",
            createdAt := "t1", updatedAt := "t1", count := 3 } :: []) ∧
    (resolveAndIncrement [["idZ", "https://z.example", "zzz", "tZ", "tZ", "0"]] "nope" =
      .error .notFound ↔
      "nope" ∉ getAllShortCodes [["idZ", "https://z.example", "zzz", "tZ", "tZ", "0"]]) := by
  have h := claim_C4_increment [] []
    { id := "id1", url := "https://a.example", shortCode := "abc",
      createdAt := "t1", updatedAt := "t1", count := 0 } 3
    (by decide) (by decide) rfl
  exact ⟨h.1, h.2 _ "nope" (by decide) (by decide)⟩

/-- C5 counterexample: the claim says `updateDestination` changes only the
target row's url and updatedAt cells and leaves every other row unchanged.
With a tombstoned gap at row 1 and the unique live holder of `abc` at
row 2, the update writes url and updatedAt into the tombstone (row 1) and
leaves the target row untouched. -/
theorem claim_C5_counterexample :
    updateDestination [[], ["id1", "https://a.example", "abc", "t1", "t1", "0"]] "abc"
        "https://b.example" "t2" =
      .ok [["", "https://b.example", "", "", "t2"],
        ["id1", "https://a.example", "abc", "t1", "t1", "0"]] :=
  rfl

/-- C5 amended: when no tombstoned gap (and no earlier holder of the code)
precedes the row holding the code, `updateDestination` rewrites exactly
that row's url (column B) and updatedAt (column E) cells; the row's id,
shortCode, createdAt and count cells keep their values and every other row
of the sheet is unchanged. -/
theorem claim_C5_frame (A : Sheet) (row : Row) (B : Sheet) (code newUrl ts : String)
    (hA : ∀ r ∈ A, cellAt r 2 ≠ "" ∧ cellAt r 2 ≠ code)
    (hrow : cellAt row 2 = code) (hcode : code ≠ "") :
    updateDestination (A ++ row :: B) code newUrl ts =
      .ok (A ++ setRowCell (setRowCell row 1 newUrl) 4 ts :: B) ∧
    cellAt (setRowCell (setRowCell row 1 newUrl) 4 ts) 1 = newUrl ∧
    cellAt (setRowCell (setRowCell row 1 newUrl) 4 ts) 4 = ts ∧
    ∀ i, i ≠ 1 → i ≠ 4 →
      cellAt (setRowCell (setRowCell row 1 newUrl) 4 ts) i = cellAt row i := by
  refine ⟨?_, ?_, cellAt_setRowCell_self _ _ _, ?_⟩
  · simp only [updateDestination, findRowIndex_split A row B code hA hrow hcode,
      setCell_append_cons]
  · rw [cellAt_setRowCell_ne _ _ (by omega), cellAt_setRowCell_self]
  · intro i h1 h4
    rw [cellAt_setRowCell_ne _ _ h4, cellAt_setRowCell_ne _ _ h1]

theorem claim_C5_frame_witness :
    updateDestination [["id1", "https://a.example", "abc", "t1", "t1", "0"]] "abc"
        "https://b.example" "t2" =
      .ok [setRowCell (setRowCell ["id1", "https://a.example", "abc", "t1", "t1", "0"]
        1 "https://b.example") 4 "t2"] ∧
    cellAt (setRowCell (setRowCell ["id1", "https://a.example", "abc", "t1", "t1", "0"]
        1 "https://b.example") 4 "t2") 5 =
      cellAt ["id1", "https://a.example", "abc", "t1", "t1", "0"] 5 := by
  have h := claim_C5_frame [] ["id1", "https://a.example", "abc", "t1", "t1", "0"] []
    "abc" "https://b.example" "t2" (by decide) rfl (by decide)
  exact ⟨h.1, h.2.2.2 5 (by decide) (by decide)⟩

/-- C6: `getAccessToken` returns the cached token unchanged with no
token-endpoint request whenever the stored expiry is more than 60 seconds
after `now`; otherwise it performs the exchange and, on a 2xx response,
caches and returns the fresh token with expiry `now + expires_in`
(defaulting to `now + 3600` when `expires_in` is absent). -/
theorem claim_C6_token_cache (cache : Option TokenCacheEntry) (now : Int)
    (f : FetchOutcome) :
    (∀ c, cache = some c → c.exp - 60 > now →
      getAccessToken cache now f =
        .ok { token := c.token, cache := some c, networkCall := false }) ∧
    ((∀ c, cache = some c → ¬(c.exp - 60 > now)) → ∀ resp, f = .ok resp →
      getAccessToken cache now f =
        .ok { token := resp.access_token,
              cache := some { token := resp.access_token,
                              exp := now + resp.expires_in.getD 3600 },
              networkCall := true }) := by
  constructor
  · intro c hc hfresh
    subst hc
    simp only [getAccessToken]
    rw [if_pos hfresh]
  · intro hstale resp hresp
    subst hresp
    cases cache with
    | none => rfl
    | some c =>
      simp only [getAccessToken]
      rw [if_neg (hstale c rfl)]
      rfl

theorem claim_C6_token_cache_witness :
    getAccessToken (some { token := "tok", exp := 1000 }) 100 (.httpError 500 "boom") =
      .ok { token := "tok", cache := some { token := "tok", exp := 1000 },
            networkCall := false } ∧
    getAccessToken none 100 (.ok { access_token := "new", expires_in := some 120 }) =
      .ok { token := "new", cache := some { token := "new", exp := 220 },
            networkCall := true } ∧
    getAccessToken (some { token := "old", exp := 150 }) 100
        (.ok { access_token := "new2", expires_in := none }) =
      .ok { token := "new2", cache := some { token := "new2", exp := 3700 },
            networkCall := true } := by
  refine ⟨(claim_C6_token_cache _ 100 _).1 _ rfl (by decide), ?_, ?_⟩
  · have h := (claim_C6_token_cache none 100
      (.ok { access_token := "new", expires_in := some 120 })).2
      (fun _ hc => nomatch hc) _ rfl
    simpa using h
  · have h := (claim_C6_token_cache (some { token := "old", exp := 150 }) 100
      (.ok { access_token := "new2", expires_in := none })).2
      (fun c hc => by cases hc; decide) _ rfl
    simpa using h

/-- C7: the claim says the accepted-draw set of `secureRandomInt` has size
an exact multiple of `maxExclusive` for every `2 ≤ maxExclusive ≤ 2^16`.
The computed limit `Math.floor((0xffffffff / m) * m)` equals `0xffffffff =
2^32 - 1` (exactly, both in rational arithmetic and in IEEE doubles for
`m = 2`), so for `m = 2` the accepted set has the odd size `4294967295`:
not a multiple of 2, and the sampling is biased. -/
theorem claim_C7_rejection_bias :
    rejectionLimit 2 = 4294967295 ∧
    (acceptedDraws 2).card = 4294967295 ∧
    ¬(2 ∣ (acceptedDraws 2).card) := by
  refine ⟨rejectionLimit_two, acceptedDraws_two_card, ?_⟩
  rw [acceptedDraws_two_card]
  decide

/-- C8: `generateUniqueShortCode` returns the first generated candidate
that `checkExists` reports absent; when every one of `maxAttempts`
candidates is reported taken it fails with the generation-exhausted error
after generating exactly `maxAttempts` candidates; and the default
`maxAttempts` is `5 * length` with `length` defaulting to 6 (hence 30). -/
theorem claim_C8_unique_generation (cands : Nat → String) (check : String → Bool)
    (lengthOpt maxAttemptsOpt : Option Nat) :
    (∀ j, 1 ≤ j → j ≤ maxAttemptsOpt.getD (lengthOpt.getD 6 * 5) →
      (∀ i, i < j → 1 ≤ i → check (cands i) = true) → check (cands j) = false →
      generateUniqueShortCode cands check lengthOpt maxAttemptsOpt = .ok (cands j)) ∧
    ((∀ i, i ≤ maxAttemptsOpt.getD (lengthOpt.getD 6 * 5) → 1 ≤ i →
        check (cands i) = true) →
      generateUniqueShortCode cands check lengthOpt maxAttemptsOpt =
        .error (.exhausted (maxAttemptsOpt.getD (lengthOpt.getD 6 * 5))) ∧
      (genUniqueGo cands check 1 (maxAttemptsOpt.getD (lengthOpt.getD 6 * 5))).2 =
        maxAttemptsOpt.getD (lengthOpt.getD 6 * 5)) ∧
    (maxAttemptsOpt = none → lengthOpt = none →
      maxAttemptsOpt.getD (lengthOpt.getD 6 * 5) = 30) := by
  refine ⟨?_, ?_, ?_⟩
  · intro j h1 h2 hprev hj
    have hgo := genUniqueGo_first cands check
      (maxAttemptsOpt.getD (lengthOpt.getD 6 * 5)) 1 j h1 (by omega)
      (fun i hi1 hi2 => hprev i hi2 hi1) hj
    rw [generateUniqueShortCode, hgo]
  · intro hall
    have hgo := genUniqueGo_all_taken cands check
      (maxAttemptsOpt.getD (lengthOpt.getD 6 * 5)) 1
      (fun i hi1 hi2 => hall i (by omega) hi1)
    rw [generateUniqueShortCode, hgo]
    exact ⟨rfl, rfl⟩
  · intro h1 h2
    subst h1
    subst h2
    rfl

theorem claim_C8_unique_generation_witness :
    generateUniqueShortCode natToCell (fun s => s != "3") none none = .ok (natToCell 3) ∧
    generateUniqueShortCode natToCell (fun _ => true) none none =
      .error (.exhausted 30) ∧
    (genUniqueGo natToCell (fun _ => true) 1 30).2 = 30 := by
  have h2 := (claim_C8_unique_generation natToCell (fun _ => true) none none).2.1
    (fun i _ _ => rfl)
  exact ⟨(claim_C8_unique_generation natToCell (fun s => s != "3") none none).1 3
    (by decide) (by decide) (by decide) (by decide), h2.1, h2.2⟩

/-- C9 counterexample: the claim says `hashShortCode` returns a string of
exactly the requested length for every length ≥ 1.  A SHA-256 digest always
has 32 bytes, and the mapping loop emits at most one character per digest
byte, so for requested length 33 the result has only 32 characters —
whatever the digest bytes are (shown here on a concrete 32-byte digest). -/
theorem claim_C9_counterexample :
    hashShortCode (List.replicate 32 0) 33 ['A', 'B', 'C', 'D'] =
      some (List.replicate 32 'A') ∧
    (List.replicate 32 'A').length = 32 :=
  ⟨rfl, rfl⟩

/-- C9 amended: for every 32-byte digest (the length of every SHA-256
digest), charset of at least 4 characters and requested length,
`hashShortCode` returns the characters of the digest-to-charset mapping:
exactly `min length 32` characters (so exactly the requested length
whenever it is at most 32), each drawn from the charset; and the output is
a function of `(digest, length, charset)` alone, so identical arguments
always yield the identical code. -/
theorem claim_C9_hash_shape (digest : List Nat) (len : Nat) (charset : List Char)
    (hdig : digest.length = 32) (hcs : 4 ≤ charset.length) :
    hashShortCode digest len charset =
      some ((digest.take len).map fun b => charset.getD (b % charset.length) 'A') ∧
    ((digest.take len).map fun b => charset.getD (b % charset.length) 'A').length =
      min len 32 ∧
    ∀ c ∈ (digest.take len).map fun b => charset.getD (b % charset.length) 'A',
      c ∈ charset := by
  refine ⟨hashShortCode_spec digest len charset hcs, ?_, ?_⟩
  · rw [List.length_map, List.length_take, hdig]
  · intro c hc
    rcases List.mem_map.mp hc with ⟨b, _, rfl⟩
    have hlt : b % charset.length < charset.length := Nat.mod_lt _ (by omega)
    rw [List.getD_eq_getElem?_getD, List.getElem?_eq_getElem hlt]
    exact List.getElem_mem hlt

theorem claim_C9_hash_shape_witness :
    hashShortCode (List.replicate 32 5) 8 ['a', 'b', 'c', 'd', 'e'] =
      some (((List.replicate 32 5).take 8).map fun b =>
        (['a', 'b', 'c', 'd', 'e'] : List Char).getD
          (b % (['a', 'b', 'c', 'd', 'e'] : List Char).length) 'A') ∧
    (((List.replicate 32 5).take 8).map fun b =>
        (['a', 'b', 'c', 'd', 'e'] : List Char).getD
          (b % (['a', 'b', 'c', 'd', 'e'] : List Char).length) 'A').length = min 8 32 := by
  have h := claim_C9_hash_shape (List.replicate 32 5) 8 ['a', 'b', 'c', 'd', 'e']
    (by decide) (by decide)
  exact ⟨h.1, h.2.1⟩

/-- C10: a row whose returned cell array has fewer than six cells or only
empty cells is read as `null` by `readRowAsRecord`, so `getRecord`,
`getStats` and `resolveAndIncrement` all fail with `NotFoundError` whenever
the scan resolves the code to such a row — even when its id, url and
shortCode cells are non-empty. -/
theorem claim_C10_short_rows (sheet : Sheet) (code : String) (r : Nat)
    (hshort : ∀ row, sheet.get? (r - 1) = some row →
      row.length < 6 ∨ ∀ c ∈ row, c = "") :
    readRowAsRecord sheet r = none ∧
    (findRowIndexByShortCode sheet code = some r →
      getRecord sheet code = .error .notFound ∧
      getStats sheet code = .error .notFound ∧
      resolveAndIncrement sheet code = .error .notFound) := by
  have hread : readRowAsRecord sheet r = none := by
    cases hrow : sheet.get? (r - 1) with
    | none => simp only [readRowAsRecord, hrow]
    | some row =>
      have hcond : (decide (row.length < 6) || row.all fun cell => cell == "") = true := by
        rcases hshort row hrow with h | h
        · exact Bool.or_eq_true _ _ |>.mpr (Or.inl (decide_eq_true h))
        · exact Bool.or_eq_true _ _ |>.mpr (Or.inr
            (List.all_eq_true.mpr fun c hc => beq_iff_eq.mpr (h c hc)))
      simp only [readRowAsRecord, hrow]
      rw [if_pos hcond]
  refine ⟨hread, fun hf => ⟨?_, ?_, ?_⟩⟩
  · simp only [getRecord, hf, hread]
  · simp only [getStats, hf, hread]
  · simp only [resolveAndIncrement, hf, hread]

theorem claim_C10_short_rows_witness :
    readRowAsRecord [["id1", "https://a.example", "abc", "t1", "t1"]] 1 = none ∧
    getRecord [["id1", "https://a.example", "abc", "t1", "t1"]] "abc" =
      .error .notFound ∧
    getStats [["id1", "https://a.example", "abc", "t1", "t1"]] "abc" =
      .error .notFound ∧
    resolveAndIncrement [["id1", "https://a.example", "abc", "t1", "t1"]] "abc" =
      .error .notFound := by
  have h := claim_C10_short_rows [["id1", "https://a.example", "abc", "t1", "t1"]] "abc" 1
    (by
      intro row hrow
      have hq : some ["id1", "https://a.example", "abc", "t1", "t1"] = some row := hrow
      cases hq
      exact Or.inl (by decide))
  exact ⟨h.1, (h.2 rfl).1, (h.2 rfl).2.1, (h.2 rfl).2.2⟩

end Shortin
